import Mathlib

/-
  Verification development for the go-version library
  (manifest loading, enrichment, validation, immutable Info snapshot,
  and the once-initialized singleton), shallowly embedded in Lean.

  Conventions of the embedding:
  * Go strings are Lean `String`; Go string comparison is byte-lexicographic,
    which for valid Unicode coincides with code-point lexicographic order,
    modelled by `chListLt` on the character list.
  * Go `int` is `Int`, with the 64-bit range check of strconv.Atoi made
    explicit in `goAtoiL`.
  * Go maps are association lists (`StrMap`); a `nil` map is `none` of an
    `Option`, a non-nil map is `some`.  Map copying iterates entries and
    inserts them into a fresh map (`copyMap`), as the Go copy loops do.
  * I/O boundaries (the filesystem, the YAML unmarshaller, ldflags values,
    runtime build-info, git command output, the clock) are explicit
    parameters (`FS`, `Unmarshal`, `Env`).
  * The aliasing behaviour of the copy-out getters is modelled with an
    explicit heap of map cells (`Heap`), since aliasing is a heap property.
  * The singleton lifecycle is modelled as an interleaving small-step
    transition system (`Singleton.Step`) over any number of threads, with
    the sync.Once mutex modelled by the once-state owning thread.
-/

namespace GoVersion

namespace SemVer

/-- Byte-lexicographic order on character lists, as Go compares strings. -/
def chListLt : List Char → List Char → Bool
  | [], [] => false
  | [], _ :: _ => true
  | _ :: _, [] => false
  | a :: as, b :: bs =>
    if a.toNat < b.toNat then true
    else if b.toNat < a.toNat then false
    else chListLt as bs

/-- Go string comparison s < t. -/
def goStrLt (s t : String) : Bool := chListLt s.data t.data

/-- Value of a decimal digit character, if it is one. -/
def digitVal? (c : Char) : Option Nat :=
  if 48 ≤ c.toNat ∧ c.toNat ≤ 57 then some (c.toNat - 48) else none

/-- Accumulate the decimal value of a digit list; none on a non-digit. -/
def decValAux : List Char → Nat → Option Nat
  | [], acc => some acc
  | c :: cs, acc =>
    match digitVal? c with
    | none => none
    | some d => decValAux cs (acc * 10 + d)

/-- Decimal value of a non-empty digit list. -/
def decVal? : List Char → Option Nat
  | [] => none
  | cs => decValAux cs 0

/-- Largest Go int (64-bit). -/
def maxGoInt : Int := 9223372036854775807

/-- Smallest Go int (64-bit). -/
def minGoInt : Int := -9223372036854775808

/-- Model of Go strconv.Atoi on a character list: optional sign, decimal
digits, error on empty input, a non-digit, or 64-bit overflow. -/
def goAtoiL (cs : List Char) : Except String Int :=
  let sr : Int × List Char :=
    match cs with
    | '+' :: r => (1, r)
    | '-' :: r => (-1, r)
    | r => (1, r)
  match decVal? sr.2 with
  | none => .error "invalid syntax"
  | some n =>
    let v : Int := sr.1 * (n : Int)
    if v < minGoInt ∨ maxGoInt < v then .error "value out of range" else .ok v

/-- Model of strings.SplitN(s, sep, 2): the part before the first
occurrence of sep, and the rest (none when sep does not occur). -/
def breakOnChar (sep : Char) : List Char → List Char × Option (List Char)
  | [] => ([], none)
  | c :: cs =>
    if c = sep then ([], some cs)
    else
      let r := breakOnChar sep cs
      (c :: r.1, r.2)

/-- Model of strings.Split(s, sep): split at every occurrence of sep. -/
def splitChar (sep : Char) : List Char → List (List Char)
  | [] => [[]]
  | c :: cs =>
    match splitChar sep cs with
    | [] => [[]]
    | h :: t => if c = sep then [] :: h :: t else (c :: h) :: t

/-- A semantic version, as in internal/semver.Version. -/
structure Version where
  Major : Int
  Minor : Int
  Patch : Int
  Prerelease : String
  Build : String
  deriving DecidableEq, Repr

/-- Model of semver.Parse: strip an optional leading v, split off build
metadata at the first plus sign, split off the prerelease at the first
dash, then parse 1 to 3 dot-separated core segments with Atoi, missing
minor/patch defaulting to 0. -/
def Parse (s0 : String) : Except String Version :=
  let sL : List Char :=
    match s0.data with
    | 'v' :: r => r
    | r => r
  if sL.isEmpty then .error "empty version string"
  else
    let b := breakOnChar '+' sL
    let buildPart := (b.2.getD [])
    let p := breakOnChar '-' b.1
    let prereleasePart := (p.2.getD [])
    let coreParts := splitChar '.' p.1
    if coreParts.length < 1 ∨ 3 < coreParts.length then
      .error ("invalid version format: " ++ String.mk sL)
    else
      match goAtoiL (coreParts.getD 0 []) with
      | .error _ => .error ("invalid major version: " ++ String.mk (coreParts.getD 0 []))
      | .ok maj =>
        match (match coreParts.get? 1 with
               | none => Except.ok 0
               | some c =>
                 match goAtoiL c with
                 | .error _ => Except.error ("invalid minor version: " ++ String.mk c)
                 | .ok n => Except.ok n) with
        | .error e => .error e
        | .ok minr =>
          match (match coreParts.get? 2 with
                 | none => Except.ok 0
                 | some c =>
                   match goAtoiL c with
                   | .error _ => Except.error ("invalid patch version: " ++ String.mk c)
                   | .ok n => Except.ok n) with
          | .error e => .error e
          | .ok pat =>
            .ok { Major := maj, Minor := minr, Patch := pat,
                  Prerelease := String.mk prereleasePart,
                  Build := String.mk buildPart }

/-- Decimal digits of a natural number (fuel-based structural recursion). -/
def natDecChars : Nat → Nat → List Char
  | 0, _ => []
  | fuel + 1, n =>
    if n < 10 then [Char.ofNat (48 + n)]
    else natDecChars fuel (n / 10) ++ [Char.ofNat (48 + n % 10)]

/-- Decimal string of a natural number. -/
def natDecStr (n : Nat) : String := String.mk (natDecChars (n + 1) n)

/-- Decimal string of an integer, as fmt prints a Go int with the d verb. -/
def intDecStr (i : Int) : String :=
  if i < 0 then "-" ++ natDecStr i.natAbs else natDecStr i.toNat

/-- Model of Version.String: major.minor.patch, then -prerelease if
non-empty, then +build if non-empty. -/
def Version.toString (v : Version) : String :=
  let s := intDecStr v.Major ++ "." ++ intDecStr v.Minor ++ "." ++ intDecStr v.Patch
  let s := if v.Prerelease ≠ "" then s ++ "-" ++ v.Prerelease else s
  if v.Build ≠ "" then s ++ "+" ++ v.Build else s

/-- Model of Version.Compare: major, then minor, then patch numerically;
then a release outranks a prerelease, and two prereleases compare as
plain strings; build metadata is ignored. -/
def Version.Compare (v other : Version) : Int :=
  if v.Major ≠ other.Major then
    if v.Major < other.Major then -1 else 1
  else if v.Minor ≠ other.Minor then
    if v.Minor < other.Minor then -1 else 1
  else if v.Patch ≠ other.Patch then
    if v.Patch < other.Patch then -1 else 1
  else if v.Prerelease = "" ∧ other.Prerelease ≠ "" then 1
  else if v.Prerelease ≠ "" ∧ other.Prerelease = "" then -1
  else if v.Prerelease ≠ other.Prerelease then
    if goStrLt v.Prerelease other.Prerelease then -1 else 1
  else 0

/-- Model of Version.LessThan. -/
def Version.LessThan (v other : Version) : Bool := decide (v.Compare other < 0)

/-- Model of Version.GreaterThan. -/
def Version.GreaterThan (v other : Version) : Bool := decide (0 < v.Compare other)

/-- Model of Version.Equal. -/
def Version.Equal (v other : Version) : Bool := decide (v.Compare other = 0)

/-- Model of Version.GreaterThanOrEqual. -/
def Version.GreaterThanOrEqual (v other : Version) : Bool := decide (0 ≤ v.Compare other)

/-- Model of Version.LessThanOrEqual. -/
def Version.LessThanOrEqual (v other : Version) : Bool := decide (v.Compare other ≤ 0)

/-- Prerelease comparison as the specification words it: no tag outranks
a tag, two tags compare as plain strings. -/
def specPreCompare (p q : String) : Int :=
  if p = "" then (if q = "" then 0 else 1)
  else if q = "" then -1
  else if goStrLt p q then -1
  else if goStrLt q p then 1
  else 0

/-- The comparison algorithm as the specification words it: major, minor,
patch numerically, then the prerelease rule; build metadata absent. -/
def specCompare (a b : Version) : Int :=
  if a.Major < b.Major then -1
  else if b.Major < a.Major then 1
  else if a.Minor < b.Minor then -1
  else if b.Minor < a.Minor then 1
  else if a.Patch < b.Patch then -1
  else if b.Patch < a.Patch then 1
  else specPreCompare a.Prerelease b.Prerelease

end SemVer

/-- A Go map from strings, as an association list (first binding wins). -/
abbrev StrMap (α : Type) := List (String × α)

/-- Map lookup: the first binding of the key, if any. -/
def mapLookup {α : Type} (k : String) : StrMap α → Option α
  | [] => none
  | (k1, v) :: rest => if k1 = k then some v else mapLookup k rest

/-- Map insert with replacement, as a Go map assignment. -/
def mapInsert {α : Type} (k : String) (v : α) : StrMap α → StrMap α
  | [] => [(k, v)]
  | (k1, v1) :: rest =>
    if k1 = k then (k1, v) :: rest else (k1, v1) :: mapInsert k v rest

/-- The Go map copy loop: range over the source and insert each entry
into a fresh map. -/
def copyMap {α : Type} (m : StrMap α) : StrMap α :=
  m.foldl (fun acc p => mapInsert p.1 p.2 acc) []

/-- An opaque Go interface value, as stored in the custom dimension. -/
inductive GoValue where
  | str (s : String)
  | int (i : Int)
  | bool (b : Bool)
  | null
  deriving DecidableEq, Repr

/-- The project section of a manifest. -/
structure ProjectManifest where
  Name : String
  Version : String
  deriving DecidableEq, Repr

/-- The manifest file shape: format version, project record, and four
optional dimension maps (a missing YAML section leaves the Go map nil,
modelled as none). -/
structure Manifest where
  ManifestVersion : String
  Project : ProjectManifest
  Schemas : Option (StrMap String)
  APIs : Option (StrMap String)
  Components : Option (StrMap String)
  Custom : Option (StrMap GoValue)
  deriving DecidableEq

/-- Current manifest format version. -/
def ManifestVersion : String := "1.0"

/-- Default YAML manifest filename. -/
def ManifestFilenameYAML : String := "versions.yaml"

/-- Default commit value when git info is unavailable. -/
def DefaultGitCommit : String := "dev"

/-- Default tree state when git status cannot be determined. -/
def DefaultGitTreeState : String := "clean"

/-- Default build time when not injected. -/
def DefaultBuildTime : String := "unknown"

/-- Default build user when not injected. -/
def DefaultBuildUser : String := ""

/-- Default project name when no manifest is found. -/
def DefaultProjectName : String := "unknown"

/-- Default project version when no manifest is found. -/
def DefaultProjectVersion : String := "0.0.0-dev"

/-- Tree state for uncommitted changes. -/
def GitTreeStateDirty : String := "dirty"

/-- Build-info key for the VCS revision. -/
def VCSKeyRevision : String := "vcs.revision"

/-- Build-info key for the VCS commit time. -/
def VCSKeyTime : String := "vcs.time"

/-- Build-info key for the VCS modified flag. -/
def VCSKeyModified : String := "vcs.modified"

/-- Build-info value for a set VCS modified flag. -/
def VCSValueTrue : String := "true"

/-- The project name and version of an Info. -/
structure ProjectVersion where
  Name : String
  Version : String
  deriving DecidableEq, Repr

/-- Git metadata of an Info. -/
structure GitInfo where
  Commit : String
  Tag : String
  TreeState : String
  CommitTime : String
  deriving DecidableEq, Repr

/-- Build metadata of an Info. -/
structure BuildInfo where
  Time : String
  User : String
  GoVersion : String
  deriving DecidableEq, Repr

/-- The runtime version snapshot.  The dimension maps are the unexported
fields of the Go struct; `loadedAt` is an abstract timestamp. -/
structure Info where
  Project : ProjectVersion
  Git : GitInfo
  Build : BuildInfo
  schemas : Option (StrMap String)
  apis : Option (StrMap String)
  components : Option (StrMap String)
  custom : Option (StrMap GoValue)
  loadedAt : Nat
  deriving DecidableEq

/-- Model of Info.GetSchemaVersion: the version and true when found,
empty string and false when the map is nil or the key absent. -/
def Info.GetSchemaVersion (i : Info) (name : String) : String × Bool :=
  match i.schemas with
  | none => ("", false)
  | some m =>
    match mapLookup name m with
    | none => ("", false)
    | some v => (v, true)

/-- Model of Info.GetAPIVersion. -/
def Info.GetAPIVersion (i : Info) (name : String) : String × Bool :=
  match i.apis with
  | none => ("", false)
  | some m =>
    match mapLookup name m with
    | none => ("", false)
    | some v => (v, true)

/-- Model of Info.GetComponentVersion. -/
def Info.GetComponentVersion (i : Info) (name : String) : String × Bool :=
  match i.components with
  | none => ("", false)
  | some m =>
    match mapLookup name m with
    | none => ("", false)
    | some v => (v, true)

/-- Model of Info.GetSchemas: nil stays nil, otherwise a defensive copy. -/
def Info.GetSchemas (i : Info) : Option (StrMap String) :=
  match i.schemas with
  | none => none
  | some m => some (copyMap m)

/-- Model of Info.GetAPIs. -/
def Info.GetAPIs (i : Info) : Option (StrMap String) :=
  match i.apis with
  | none => none
  | some m => some (copyMap m)

/-- Model of Info.GetComponents. -/
def Info.GetComponents (i : Info) : Option (StrMap String) :=
  match i.components with
  | none => none
  | some m => some (copyMap m)

/-- Model of Info.GetCustom. -/
def Info.GetCustom (i : Info) : Option (StrMap GoValue) :=
  match i.custom with
  | none => none
  | some m => some (copyMap m)

/-- A validation failure, by kind and payload, mirroring the formatted
errors the validators build. -/
inductive VErr where
  | notFound (dim name : String)
  | invalidActual (dim actual name : String)
  | invalidMin (minVersion : String)
  | tooOld (dim name actual minVersion : String)
  | custom (msg : String)
  deriving DecidableEq, Repr

/-- A loader or pipeline error, by kind: notExist is os.ErrNotExist (the
one kind os.IsNotExist recognises here); parseYAML wraps a YAML error;
the two required-field errors are the invalid-manifest checks;
strictManifestRequired is the strict-mode missing-manifest error;
loadManifestWrap and validationWrap are the wrapping at the pipeline
level. -/
inductive LoadErr where
  | notExist
  | parseYAML (msg : String)
  | projectNameRequired
  | projectVersionRequired
  | strictManifestRequired
  | loadManifestWrap (e : LoadErr)
  | validationWrap (e : VErr)
  deriving DecidableEq, Repr

/-- Model of os.IsNotExist on the errors loadManifest can return. -/
def isNotExist : LoadErr → Bool
  | .notExist => true
  | _ => false

/-- A validator: context is threaded opaquely in Go and unused by the
built-ins, so it is elided here; none means the snapshot passed. -/
abbrev Validator := Info → Option VErr

/-- Model of LoadOptions. -/
structure LoadOptions where
  manifestPath : String
  manifestEmbed : String
  includeGit : Bool
  includeBuild : Bool
  validators : List Validator
  strictMode : Bool

/-- Model of defaultLoadOptions. -/
def defaultLoadOptions : LoadOptions :=
  { manifestPath := ManifestFilenameYAML
    manifestEmbed := ""
    includeGit := true
    includeBuild := true
    validators := []
    strictMode := false }

/-- A functional option. -/
abbrev GoOption := LoadOptions → LoadOptions

/-- Model of WithManifestPath. -/
def WithManifestPath (path : String) : GoOption :=
  fun o => { o with manifestPath := path }

/-- Model of WithEmbedded. -/
def WithEmbedded (data : String) : GoOption :=
  fun o => { o with manifestEmbed := data }

/-- Model of WithGitInfo. -/
def WithGitInfo : GoOption := fun o => { o with includeGit := true }

/-- Model of WithoutGitInfo. -/
def WithoutGitInfo : GoOption := fun o => { o with includeGit := false }

/-- Model of WithBuildInfo. -/
def WithBuildInfo : GoOption := fun o => { o with includeBuild := true }

/-- Model of WithoutBuildInfo. -/
def WithoutBuildInfo : GoOption := fun o => { o with includeBuild := false }

/-- Model of WithValidators. -/
def WithValidators (vs : List Validator) : GoOption :=
  fun o => { o with validators := o.validators ++ vs }

/-- Model of WithStrictMode. -/
def WithStrictMode : GoOption := fun o => { o with strictMode := true }

/-- The filesystem boundary: contents of a path, none when the file does
not exist (the one ReadFile failure mode modelled here). -/
abbrev FS := String → Option String

/-- The YAML unmarshaller boundary: raw manifest or a parse error. -/
abbrev Unmarshal := String → Except String Manifest

/-- The ambient build and VCS environment: ldflags-injected variables,
runtime build-info settings, git command output (none when the binary is
absent, outside the allow-list, times out, or exits non-zero), the Go
toolchain version, and the clock. -/
structure Env where
  ldGitCommit : String
  ldGitTag : String
  ldGitTreeState : String
  ldBuildTime : String
  ldBuildUser : String
  buildInfoSettings : Option (List (String × String))
  gitCmdCommitOutput : Option String
  gitCmdTagOutput : Option String
  goVersion : String
  now : Nat

/-- Model of parseManifest: unmarshal, default the format version, then
require non-empty project name and version. -/
def parseManifest (unmarshal : Unmarshal) (data : String) : Except LoadErr Manifest :=
  match unmarshal data with
  | .error e => .error (.parseYAML e)
  | .ok m0 =>
    let m := if m0.ManifestVersion = "" then { m0 with ManifestVersion := ManifestVersion } else m0
    if m.Project.Name = "" then .error .projectNameRequired
    else if m.Project.Version = "" then .error .projectVersionRequired
    else .ok m

/-- Model of loadManifest: embedded bytes first, then the file path, else
os.ErrNotExist. -/
def loadManifest (unmarshal : Unmarshal) (fs : FS) (options : LoadOptions) :
    Except LoadErr Manifest :=
  if 0 < options.manifestEmbed.length then
    parseManifest unmarshal options.manifestEmbed
  else if options.manifestPath ≠ "" then
    match fs options.manifestPath with
    | none => .error .notExist
    | some data => parseManifest unmarshal data
  else .error .notExist

/-- Model of defaultManifest. -/
def defaultManifest : Manifest :=
  { ManifestVersion := ManifestVersion
    Project := { Name := DefaultProjectName, Version := DefaultProjectVersion }
    Schemas := none
    APIs := none
    Components := none
    Custom := none }

/-- Model of manifestToInfo: copy the project fields, default provenance,
capture the toolchain version, and defensively copy each non-nil
dimension map. -/
def manifestToInfo (env : Env) (m : Manifest) : Info :=
  { Project := { Name := m.Project.Name, Version := m.Project.Version }
    Git := { Commit := DefaultGitCommit, Tag := "", TreeState := DefaultGitTreeState,
             CommitTime := "" }
    Build := { Time := DefaultBuildTime, User := "", GoVersion := env.goVersion }
    schemas := m.Schemas.map copyMap
    apis := m.APIs.map copyMap
    components := m.Components.map copyMap
    custom := m.Custom.map copyMap
    loadedAt := 0 }

/-- Model of applyLdflagsGitInfo: adopt each injected value that differs
from its default sentinel. -/
def applyLdflagsGitInfo (env : Env) (info : Info) : Info :=
  let info1 :=
    if env.ldGitCommit ≠ DefaultGitCommit then
      { info with Git := { info.Git with Commit := env.ldGitCommit } }
    else info
  let info2 :=
    if env.ldGitTag ≠ "" then
      { info1 with Git := { info1.Git with Tag := env.ldGitTag } }
    else info1
  if env.ldGitTreeState ≠ DefaultGitTreeState then
    { info2 with Git := { info2.Git with TreeState := env.ldGitTreeState } }
  else info2

/-- One build-info setting applied, as the switch in
applyBuildInfoGitData. -/
def applyVCSSetting (info : Info) (setting : String × String) : Info :=
  if setting.1 = VCSKeyRevision then
    if info.Git.Commit = DefaultGitCommit then
      { info with Git := { info.Git with Commit := setting.2 } }
    else info
  else if setting.1 = VCSKeyTime then
    if info.Git.CommitTime = "" then
      { info with Git := { info.Git with CommitTime := setting.2 } }
    else info
  else if setting.1 = VCSKeyModified then
    if setting.2 = VCSValueTrue then
      { info with Git := { info.Git with TreeState := GitTreeStateDirty } }
    else info
  else info

/-- Model of applyBuildInfoGitData: fold the runtime build-info settings,
when available, over the snapshot. -/
def applyBuildInfoGitData (env : Env) (info : Info) : Info :=
  match env.buildInfoSettings with
  | none => info
  | some settings => settings.foldl applyVCSSetting info

/-- ASCII whitespace, for TrimSpace. -/
def isSpaceChar (c : Char) : Bool :=
  c = ' ' ∨ c = '\t' ∨ c = '\n' ∨ c = '\r'

/-- Model of strings.TrimSpace. -/
def trimSpace (s : String) : String :=
  String.mk (((s.data.dropWhile isSpaceChar).reverse.dropWhile isSpaceChar).reverse)

/-- Model of isValidCommitHash: 7 to 40 hex characters. -/
def isValidCommitHash (hash : String) : Bool :=
  if hash.length < 7 ∨ 40 < hash.length then false
  else hash.data.all (fun c =>
    (48 ≤ c.toNat ∧ c.toNat ≤ 57) ∨ (97 ≤ c.toNat ∧ c.toNat ≤ 102) ∨
    (65 ≤ c.toNat ∧ c.toNat ≤ 70))

/-- Model of getGitCommit: trimmed command output, kept only when it
validates as a commit hash. -/
def getGitCommit (env : Env) : String :=
  match env.gitCmdCommitOutput with
  | none => ""
  | some out =>
    let hash := trimSpace out
    if isValidCommitHash hash then hash else ""

/-- Model of getGitTag: trimmed command output. -/
def getGitTag (env : Env) : String :=
  match env.gitCmdTagOutput with
  | none => ""
  | some out => trimSpace out

/-- Model of applyGitCommandFallback: fill commit and tag still at their
defaults from the git command. -/
def applyGitCommandFallback (env : Env) (info : Info) : Info :=
  let info1 :=
    if info.Git.Commit = DefaultGitCommit then
      let commit := getGitCommit env
      if commit ≠ "" then { info with Git := { info.Git with Commit := commit } } else info
    else info
  if info1.Git.Tag = "" then
    let tag := getGitTag env
    if tag ≠ "" then { info1 with Git := { info1.Git with Tag := tag } } else info1
  else info1

/-- Model of enrichWithGitInfo: ldflags, then build-info, then the git
command fallback, in that order. -/
def enrichWithGitInfo (env : Env) (info : Info) : Info :=
  applyGitCommandFallback env (applyBuildInfoGitData env (applyLdflagsGitInfo env info))

/-- Model of enrichWithBuildInfo: injected time and user when not at
their defaults; the toolchain version is always captured. -/
def enrichWithBuildInfo (env : Env) (info : Info) : Info :=
  let info1 :=
    if env.ldBuildTime ≠ DefaultBuildTime then
      { info with Build := { info.Build with Time := env.ldBuildTime } }
    else info
  let info2 :=
    if env.ldBuildUser ≠ DefaultBuildUser then
      { info1 with Build := { info1.Build with User := env.ldBuildUser } }
    else info1
  { info2 with Build := { info2.Build with GoVersion := env.goVersion } }

/-- The validator loop of loadVersionInfo: strictly sequential, stopping
at the first failure. -/
def runValidators (validators : List Validator) (info : Info) : Option VErr :=
  match validators with
  | [] => none
  | v :: rest =>
    match v info with
    | some e => some e
    | none => runValidators rest info

/-- The pipeline of loadVersionInfo up to but not including validation:
resolve the manifest (with the strict-mode and defaults policy), build
the snapshot, stamp loadedAt, and enrich. -/
def buildSnapshot (unmarshal : Unmarshal) (fs : FS) (env : Env)
    (options : LoadOptions) : Except LoadErr Info :=
  let manifestE : Except LoadErr Manifest :=
    match loadManifest unmarshal fs options with
    | .error err =>
      if options.strictMode then
        if isNotExist err then .error .strictManifestRequired
        else .error (.loadManifestWrap err)
      else if ¬ (isNotExist err = true) then .error (.loadManifestWrap err)
      else .ok defaultManifest
    | .ok m => .ok m
  match manifestE with
  | .error e => .error e
  | .ok manifest =>
    let info := manifestToInfo env manifest
    let info := { info with loadedAt := env.now }
    let info := if options.includeGit then enrichWithGitInfo env info else info
    let info := if options.includeBuild then enrichWithBuildInfo env info else info
    .ok info

/-- Model of loadVersionInfo on already-applied options: build the
snapshot, then run the validators, the first failure aborting the load
with that validator's error wrapped. -/
def loadVersionInfoWith (unmarshal : Unmarshal) (fs : FS) (env : Env)
    (options : LoadOptions) : Except LoadErr Info :=
  match buildSnapshot unmarshal fs env options with
  | .error e => .error e
  | .ok info =>
    match runValidators options.validators info with
    | some e => .error (.validationWrap e)
    | none => .ok info

/-- Model of loadVersionInfo: apply the functional options to the
defaults, then run the pipeline. -/
def loadVersionInfo (unmarshal : Unmarshal) (fs : FS) (env : Env)
    (opts : List GoOption) : Except LoadErr Info :=
  loadVersionInfoWith unmarshal fs env (opts.foldl (fun o f => f o) defaultLoadOptions)

/-- Model of genericVersionValidator: dimension, item name, minimum
version, and the dimension lookup. -/
structure GenericVersionValidator where
  dimensionType : String
  name : String
  minVersion : String
  getterFunc : Info → String → String × Bool

/-- Model of genericVersionValidator.Validate: not-found, then SemVer
parse of the actual and of the minimum, then the too-old check. -/
def GenericVersionValidator.Validate (v : GenericVersionValidator) (info : Info) :
    Option VErr :=
  let r := v.getterFunc info v.name
  if r.2 then
    match SemVer.Parse r.1 with
    | .error _ => some (.invalidActual v.dimensionType r.1 v.name)
    | .ok actualVer =>
      match SemVer.Parse v.minVersion with
      | .error _ => some (.invalidMin v.minVersion)
      | .ok minVer =>
        if actualVer.LessThan minVer then
          some (.tooOld v.dimensionType v.name r.1 v.minVersion)
        else none
  else some (.notFound v.dimensionType v.name)

/-- Model of NewSchemaValidator. -/
def NewSchemaValidator (schemaName minVersion : String) : GenericVersionValidator :=
  { dimensionType := "schema", name := schemaName, minVersion := minVersion,
    getterFunc := Info.GetSchemaVersion }

/-- Model of NewAPIValidator. -/
def NewAPIValidator (apiName minVersion : String) : GenericVersionValidator :=
  { dimensionType := "API", name := apiName, minVersion := minVersion,
    getterFunc := Info.GetAPIVersion }

/-- Model of NewComponentValidator. -/
def NewComponentValidator (componentName minVersion : String) : GenericVersionValidator :=
  { dimensionType := "component", name := componentName, minVersion := minVersion,
    getterFunc := Info.GetComponentVersion }

/-- A genericVersionValidator as a pipeline validator. -/
def GenericVersionValidator.toValidator (v : GenericVersionValidator) : Validator :=
  fun info => v.Validate info

/-- A heap of map cells, for observing aliasing: each cell holds one Go
map value; references are cell indices. -/
abbrev Heap (α : Type) := List (StrMap α)

/-- Read the map at a reference (an unallocated reference reads as the
empty map; the theorems only read allocated references). -/
def heapRead {α : Type} (h : Heap α) (r : Nat) : StrMap α := (h.get? r).getD []

/-- Allocate a fresh cell holding m; returns the heap and the new
reference. -/
def heapAlloc {α : Type} (h : Heap α) (m : StrMap α) : Heap α × Nat :=
  (h ++ [m], h.length)

/-- Overwrite the cell at a reference: the model of the caller mutating
a map it holds a reference to. -/
def heapWrite {α : Type} (h : Heap α) (r : Nat) (m : StrMap α) : Heap α :=
  h.set r m

/-- An Info at the heap level: each dimension field is nil or a
reference to its internal map cell. -/
structure InfoH where
  schemas : Option Nat
  apis : Option Nat
  components : Option Nat
  custom : Option Nat
  deriving DecidableEq, Repr

/-- The copy-out getter body shared by the four dimension getters: nil
returns nil and leaves the heap alone; otherwise copy the internal map
into a freshly allocated cell and return its reference. -/
def copyOutMap {α : Type} (field : Option Nat) (h : Heap α) : Heap α × Option Nat :=
  match field with
  | none => (h, none)
  | some r =>
    let a := heapAlloc h (copyMap (heapRead h r))
    (a.1, some a.2)

/-- Heap-level model of Info.GetSchemas. -/
def InfoH.GetSchemas (i : InfoH) (h : Heap String) : Heap String × Option Nat :=
  copyOutMap i.schemas h

/-- Heap-level model of Info.GetAPIs. -/
def InfoH.GetAPIs (i : InfoH) (h : Heap String) : Heap String × Option Nat :=
  copyOutMap i.apis h

/-- Heap-level model of Info.GetComponents. -/
def InfoH.GetComponents (i : InfoH) (h : Heap String) : Heap String × Option Nat :=
  copyOutMap i.components h

/-- Heap-level model of Info.GetCustom. -/
def InfoH.GetCustom (i : InfoH) (h : Heap GoValue) : Heap GoValue × Option Nat :=
  copyOutMap i.custom h

/-- Keys of a map are pairwise distinct, the invariant every Go map
value satisfies. -/
def keysND {α : Type} : StrMap α → Bool
  | [] => true
  | (k, _) :: rest => (!(rest.any (fun p => p.1 == k))) && keysND rest

/-- A dimension field is valid in a heap: nil, or an allocated reference
whose cell satisfies the Go map invariant. -/
def validField {α : Type} : Option Nat → Heap α → Bool
  | none, _ => true
  | some r, h => decide (r < h.length) && keysND (heapRead h r)

/-- Two maps agree on every lookup. -/
def mapEquiv {α : Type} (m1 m2 : StrMap α) : Prop :=
  ∀ k, mapLookup k m1 = mapLookup k m2

/-- What two successive copy-out calls must satisfy: on a nil field both
return nil unchanged; otherwise the two returned references and the
internal reference are pairwise distinct, all three cells agree on every
lookup with the original internal map, and overwriting either returned
cell leaves the other returned cell and the internal cell unread. -/
abbrev copyOutSpec {α : Type} (internal : Option Nat)
    (p1 p2 : Heap α × Option Nat) (h : Heap α) : Prop :=
  match internal with
  | none => p1 = (h, none) ∧ p2 = (h, none)
  | some r =>
    ∃ r1 r2, p1.2 = some r1 ∧ p2.2 = some r2 ∧
      r1 ≠ r2 ∧ r1 ≠ r ∧ r2 ≠ r ∧
      mapEquiv (heapRead p2.1 r1) (heapRead h r) ∧
      mapEquiv (heapRead p2.1 r2) (heapRead h r) ∧
      heapRead p2.1 r = heapRead h r ∧
      (∀ m, heapRead (heapWrite p2.1 r1 m) r2 = heapRead p2.1 r2 ∧
            heapRead (heapWrite p2.1 r1 m) r = heapRead p2.1 r ∧
            heapRead (heapWrite p2.1 r2 m) r1 = heapRead p2.1 r1 ∧
            heapRead (heapWrite p2.1 r2 m) r = heapRead p2.1 r)

namespace Singleton

/-- The state of the one-shot guard: untouched, body running (owned by a
thread), body finished but the guard not yet marked done, or done. -/
inductive OnceSt where
  | idle
  | runBody (owner : Nat)
  | runClose (owner : Nat)
  | completed
  deriving DecidableEq, Repr

/-- A thread's program counter through the Get and initialize entry
points: about to fast-path-read the atomic instance, inside the once
guard, past the guard and about to read the outcome, finished observing
an instance, finished observing the stored error, or fell through with
neither (never reachable). -/
inductive PC where
  | fastRead
  | inOnce
  | afterOnce
  | finished (r : Nat)
  | finishedErr (e : Nat)
  | failed
  deriving DecidableEq, Repr

/-- A global configuration: the guard state, the atomic instance slot
(references by identity), the stored init error, how many times the
pipeline body has run, and every thread's program counter. -/
structure Config where
  once : OnceSt
  instVal : Option Nat
  err : Option Nat
  runs : Nat
  ts : List PC
  deriving DecidableEq, Repr

/-- One interleaved step of one thread.  The pipeline body is the
runBody stage; storing the instance or recording the error happens
inside the guard before it is marked done, exactly as in the source. -/
inductive Step : Config → Config → Prop where
  | fastHit (c : Config) (i r : Nat) :
      c.ts.get? i = some .fastRead → c.instVal = some r →
      Step c { c with ts := c.ts.set i (.finished r) }
  | fastMiss (c : Config) (i : Nat) :
      c.ts.get? i = some .fastRead → c.instVal = none →
      Step c { c with ts := c.ts.set i .inOnce }
  | acquire (c : Config) (i : Nat) :
      c.ts.get? i = some .inOnce → c.once = .idle →
      Step c { c with once := .runBody i, runs := c.runs + 1 }
  | bodyOk (c : Config) (i v : Nat) :
      c.ts.get? i = some .inOnce → c.once = .runBody i →
      Step c { c with once := .runClose i, instVal := some v }
  | bodyFail (c : Config) (i e : Nat) :
      c.ts.get? i = some .inOnce → c.once = .runBody i →
      Step c { c with once := .runClose i, err := some e }
  | closeOnce (c : Config) (i : Nat) :
      c.ts.get? i = some .inOnce → c.once = .runClose i →
      Step c { c with once := .completed, ts := c.ts.set i .afterOnce }
  | skipOnce (c : Config) (i : Nat) :
      c.ts.get? i = some .inOnce → c.once = .completed →
      Step c { c with ts := c.ts.set i .afterOnce }
  | readErr (c : Config) (i e : Nat) :
      c.ts.get? i = some .afterOnce → c.err = some e →
      Step c { c with ts := c.ts.set i (.finishedErr e) }
  | readOk (c : Config) (i r : Nat) :
      c.ts.get? i = some .afterOnce → c.err = none → c.instVal = some r →
      Step c { c with ts := c.ts.set i (.finished r) }
  | readNone (c : Config) (i : Nat) :
      c.ts.get? i = some .afterOnce → c.err = none → c.instVal = none →
      Step c { c with ts := c.ts.set i .failed }

/-- Zero or more interleaved steps. -/
def Reaches : Config → Config → Prop := Relation.ReflTransGen Step

/-- The process before any entry point has made progress: guard idle,
nothing published, no error, the body never run, and every thread at the
start of Get (fastRead) or of an initialize call (inOnce). -/
def Initial (c : Config) : Prop :=
  c.once = .idle ∧ c.instVal = none ∧ c.err = none ∧ c.runs = 0 ∧
  ∀ pc ∈ c.ts, pc = PC.fastRead ∨ pc = PC.inOnce

/-- The guard has not yet produced an outcome. -/
def preBody : OnceSt → Prop
  | .idle => True
  | .runBody _ => True
  | _ => False

/-- The inductive invariant of the singleton transition system. -/
structure Inv (c : Config) : Prop where
  runs_idle : c.once = .idle → c.runs = 0
  runs_other : c.once ≠ .idle → c.runs = 1
  no_outcome : preBody c.once → c.instVal = none ∧ c.err = none
  outcome : ¬ preBody c.once → c.instVal.isSome ∨ c.err.isSome
  excl : ¬ (c.instVal.isSome ∧ c.err.isSome)
  fin_inst : ∀ r, PC.finished r ∈ c.ts → c.instVal = some r
  fin_err : ∀ e, PC.finishedErr e ∈ c.ts → c.err = some e
  after_completed : PC.afterOnce ∈ c.ts → c.once = .completed
  no_failed : PC.failed ∉ c.ts

end Singleton

/-- A concrete quiet environment for witnesses: nothing injected, no
build info, no git command output. -/
def envW : Env :=
  { ldGitCommit := DefaultGitCommit
    ldGitTag := ""
    ldGitTreeState := DefaultGitTreeState
    ldBuildTime := DefaultBuildTime
    ldBuildUser := ""
    buildInfoSettings := none
    gitCmdCommitOutput := none
    gitCmdTagOutput := none
    goVersion := "go1.24.6"
    now := 0 }

/-- A concrete unmarshaller that always fails, for witnesses. -/
def uFail : Unmarshal := fun _ => .error "yaml: malformed"

/-- A concrete unmarshaller returning a fixed small manifest, for
witnesses. -/
def uSvc : Unmarshal := fun _ =>
  .ok { ManifestVersion := "1.0"
        Project := { Name := "svc", Version := "1.2.3" }
        Schemas := some [("db", "47")]
        APIs := none
        Components := none
        Custom := none }

/-- A concrete empty filesystem, for witnesses. -/
def fsEmpty : FS := fun _ => none

/-- A concrete filesystem holding one file, for witnesses. -/
def fsOne : FS := fun p => if p = "versions.yaml" then some "data" else none

/-- A concrete always-passing validator, for witnesses. -/
def vPass : Validator := fun _ => none

/-- A concrete always-failing validator, for witnesses. -/
def vBoom : Validator := fun _ => some (VErr.custom "boom")

/-- The Info built from the default manifest in the quiet environment,
for witnesses. -/
def infoEmptyW : Info := manifestToInfo envW defaultManifest

/-- Options selecting the embedded source, for witnesses. -/
def optsEmbedX : LoadOptions := { defaultLoadOptions with manifestEmbed := "x" }

/-- Options with no source at all, for witnesses. -/
def optsNoSource : LoadOptions := { defaultLoadOptions with manifestPath := "" }

/-- Options carrying a passing, a failing, and a passing validator, for
witnesses. -/
def optsVals : LoadOptions := { defaultLoadOptions with validators := [vPass, vBoom, vPass] }

/-- Options with strict mode on, for witnesses. -/
def optsStrict : LoadOptions := { defaultLoadOptions with strictMode := true }

/-- The case analysis genericVersionValidator.Validate must satisfy:
a not-found failure naming the item when the lookup misses; an
invalid-version failure when the actual string does not parse; the
distinguished invalid-minimum failure when the minimum does not parse;
and, with both parsed, the too-old failure carrying item, actual and
minimum exactly when actual.LessThan minimum, else success. -/
abbrev validatorSpec (v : GenericVersionValidator) (info : Info) : Prop :=
  ((v.getterFunc info v.name).2 = false →
    v.Validate info = some (VErr.notFound v.dimensionType v.name)) ∧
  ((v.getterFunc info v.name).2 = true →
    (∀ perr, SemVer.Parse (v.getterFunc info v.name).1 = .error perr →
      v.Validate info =
        some (VErr.invalidActual v.dimensionType (v.getterFunc info v.name).1 v.name)) ∧
    (∀ av, SemVer.Parse (v.getterFunc info v.name).1 = .ok av →
      (∀ merr, SemVer.Parse v.minVersion = .error merr →
        v.Validate info = some (VErr.invalidMin v.minVersion)) ∧
      (∀ mv, SemVer.Parse v.minVersion = .ok mv →
        v.Validate info =
          (if av.LessThan mv then
            some (VErr.tooOld v.dimensionType v.name (v.getterFunc info v.name).1 v.minVersion)
          else none))))

/-- Agreement of two snapshots on the project record and the four
dimension maps (the fields enrichment never touches). -/
def sameCore (a b : Info) : Prop :=
  a.Project = b.Project ∧ a.schemas = b.schemas ∧ a.apis = b.apis ∧
  a.components = b.components ∧ a.custom = b.custom

/-- C5 counterexample: the claim includes "2" among the inputs that
round-trip exactly, but parsing "2" and converting back yields "2.0.0",
because Version.String always prints all three core components. -/
theorem c5_roundtrip_counterexample :
    (SemVer.Parse "2").map SemVer.Version.toString = Except.ok "2.0.0" ∧
    ¬ (SemVer.Parse "2").map SemVer.Version.toString = Except.ok "2" := by
  refine ⟨rfl, fun h => ?_⟩
  have h2 : Except.ok (ε := String) "2.0.0" = Except.ok "2" := by
    calc Except.ok (ε := String) "2.0.0"
        = (SemVer.Parse "2").map SemVer.Version.toString := rfl
      _ = _ := h
  exact absurd (Except.ok.inj h2) (by decide)

/-- C5 amended: parse-then-print round-trips exactly on the canonical
inputs that carry all three core components and no leading v ("1.2.3",
"1.2.3-alpha", "1.2.3+build", "1.2.3-beta.1+build.123"); a leading "v"
is stripped and not reproduced; but the short forms "2" and "2.1" do
not round-trip: they print with the omitted components filled with 0,
as "2.0.0" and "2.1.0". -/
theorem c5_roundtrip_amended :
    (SemVer.Parse "1.2.3").map SemVer.Version.toString = Except.ok "1.2.3" ∧
    (SemVer.Parse "1.2.3-alpha").map SemVer.Version.toString = Except.ok "1.2.3-alpha" ∧
    (SemVer.Parse "1.2.3+build").map SemVer.Version.toString = Except.ok "1.2.3+build" ∧
    (SemVer.Parse "1.2.3-beta.1+build.123").map SemVer.Version.toString
      = Except.ok "1.2.3-beta.1+build.123" ∧
    (SemVer.Parse "v1.2.3").map SemVer.Version.toString = Except.ok "1.2.3" ∧
    (SemVer.Parse "2").map SemVer.Version.toString = Except.ok "2.0.0" ∧
    (SemVer.Parse "2.1").map SemVer.Version.toString = Except.ok "2.1.0" :=
  ⟨rfl, rfl, rfl, rfl, rfl, rfl, rfl⟩

/-- C10: for an Info built from a manifest whose dimension section is
absent (the Go map is nil), the per-item getters return the pair
("", false) for every name, and the map getters return nil, not an
empty map. -/
theorem c10_absent_dimension_nil (env : Env) (m : Manifest) (name : String) :
    (m.Schemas = none →
      (manifestToInfo env m).GetSchemaVersion name = ("", false) ∧
      (manifestToInfo env m).GetSchemas = none) ∧
    (m.APIs = none →
      (manifestToInfo env m).GetAPIVersion name = ("", false) ∧
      (manifestToInfo env m).GetAPIs = none) ∧
    (m.Components = none →
      (manifestToInfo env m).GetComponentVersion name = ("", false) ∧
      (manifestToInfo env m).GetComponents = none) ∧
    (m.Custom = none → (manifestToInfo env m).GetCustom = none) := by
  refine ⟨fun h => ?_, fun h => ?_, fun h => ?_, fun h => ?_⟩
  · constructor <;> simp [manifestToInfo, Info.GetSchemaVersion, Info.GetSchemas, h]
  · constructor <;> simp [manifestToInfo, Info.GetAPIVersion, Info.GetAPIs, h]
  · constructor <;> simp [manifestToInfo, Info.GetComponentVersion, Info.GetComponents, h]
  · simp [manifestToInfo, Info.GetCustom, h]

/-- C10 witness: the default manifest has every dimension section
absent, and the Info built from it answers every getter with the nil
results. -/
theorem c10_absent_dimension_nil_w :
    defaultManifest.Schemas = none ∧ defaultManifest.APIs = none ∧
    defaultManifest.Components = none ∧ defaultManifest.Custom = none ∧
    ((manifestToInfo envW defaultManifest).GetSchemaVersion "db" = ("", false) ∧
      (manifestToInfo envW defaultManifest).GetSchemas = none) ∧
    ((manifestToInfo envW defaultManifest).GetAPIVersion "db" = ("", false) ∧
      (manifestToInfo envW defaultManifest).GetAPIs = none) ∧
    ((manifestToInfo envW defaultManifest).GetComponentVersion "db" = ("", false) ∧
      (manifestToInfo envW defaultManifest).GetComponents = none) ∧
    (manifestToInfo envW defaultManifest).GetCustom = none :=
  ⟨rfl, rfl, rfl, rfl,
    (c10_absent_dimension_nil envW defaultManifest "db").1 rfl,
    (c10_absent_dimension_nil envW defaultManifest "db").2.1 rfl,
    (c10_absent_dimension_nil envW defaultManifest "db").2.2.1 rfl,
    (c10_absent_dimension_nil envW defaultManifest "db").2.2.2 rfl⟩

/-- C3: loadManifest precedence is deterministic.  With non-empty
embedded bytes the result is exactly the parse of the embedded bytes
and is independent of the filesystem (the file path is never read);
with empty embedded bytes and a set file path the result is the file's
contents parsed, or the file-not-found kind when the file is absent;
with neither source the result is the file-not-found kind. -/
theorem c3_load_precedence (unmarshal : Unmarshal) (fs fs2 : FS) (options : LoadOptions) :
    (0 < options.manifestEmbed.length →
      loadManifest unmarshal fs options = parseManifest unmarshal options.manifestEmbed ∧
      loadManifest unmarshal fs2 options = loadManifest unmarshal fs options) ∧
    (options.manifestEmbed.length = 0 → options.manifestPath ≠ "" →
      loadManifest unmarshal fs options =
        (match fs options.manifestPath with
         | none => Except.error LoadErr.notExist
         | some data => parseManifest unmarshal data)) ∧
    (options.manifestEmbed.length = 0 → options.manifestPath = "" →
      loadManifest unmarshal fs options = Except.error LoadErr.notExist) := by
  unfold loadManifest
  refine ⟨fun h => ?_, fun h hp => ?_, fun h hp => ?_⟩
  · rw [if_pos h]
    exact ⟨rfl, by rw [if_pos h]⟩
  · rw [if_neg (by omega), if_pos hp]
  · rw [if_neg (by omega), if_neg (fun hne => hne hp)]

/-- C3 witness: with embedded bytes "x" set, the load equals the parse
of "x" on two different filesystems; with no source at all it fails
with the not-found kind. -/
theorem c3_load_precedence_w :
    0 < optsEmbedX.manifestEmbed.length ∧
    loadManifest uFail fsOne optsEmbedX = parseManifest uFail "x" ∧
    loadManifest uFail fsEmpty optsEmbedX = loadManifest uFail fsOne optsEmbedX ∧
    optsNoSource.manifestEmbed.length = 0 ∧ optsNoSource.manifestPath = "" ∧
    loadManifest uFail fsEmpty optsNoSource = Except.error LoadErr.notExist := by
  obtain ⟨h1, h2⟩ := (c3_load_precedence uFail fsOne fsEmpty optsEmbedX).1 (by decide)
  exact ⟨by decide, h1, h2, by decide, rfl,
    (c3_load_precedence uFail fsEmpty fsEmpty optsNoSource).2.2 (by decide) rfl⟩

/-- Every generic dimension validator satisfies the case analysis of
validatorSpec. -/
theorem validate_cases (v : GenericVersionValidator) (info : Info) :
    validatorSpec v info := by
  rcases hg : v.getterFunc info v.name with ⟨actual, ok⟩
  cases ok
  · refine ⟨fun _ => ?_, fun h => ?_⟩
    · simp [GenericVersionValidator.Validate, hg]
    · rw [hg] at h
      simp at h
  · refine ⟨fun h => by rw [hg] at h; simp at h,
      fun _ => ⟨fun perr hp => ?_, fun av ha => ⟨fun merr hm => ?_, fun mv hm => ?_⟩⟩⟩
    · simp [GenericVersionValidator.Validate, hg]
      simp only [hg] at hp
      simp [hp]
    · simp [GenericVersionValidator.Validate, hg]
      simp only [hg] at ha
      simp [ha, hm]
    · simp [GenericVersionValidator.Validate, hg]
      simp only [hg] at ha
      simp [ha, hm]

/-- C7: each built-in dimension validator (schema, API, component) obeys
the validatorSpec case analysis on every Info, and the invalid-version
failures are distinguished from the too-old failure. -/
theorem c7_builtin_validator (name minV : String) (info : Info) :
    validatorSpec (NewSchemaValidator name minV) info ∧
    validatorSpec (NewAPIValidator name minV) info ∧
    validatorSpec (NewComponentValidator name minV) info ∧
    (∀ d a n d2 n2 a2 m2, VErr.invalidActual d a n ≠ VErr.tooOld d2 n2 a2 m2) ∧
    (∀ mv d n a m, VErr.invalidMin mv ≠ VErr.tooOld d n a m) :=
  ⟨validate_cases _ _, validate_cases _ _, validate_cases _ _,
    fun _ _ _ _ _ _ _ h => VErr.noConfusion h,
    fun _ _ _ _ _ h => VErr.noConfusion h⟩

/-- C7 witness: on the empty snapshot the schema lookup misses, and the
schema validator reports the not-found failure naming the item. -/
theorem c7_builtin_validator_w :
    ((NewSchemaValidator "db" "1.0.0").getterFunc infoEmptyW "db").2 = false ∧
    (NewSchemaValidator "db" "1.0.0").Validate infoEmptyW =
      some (VErr.notFound "schema" "db") :=
  ⟨rfl, (c7_builtin_validator "db" "1.0.0" infoEmptyW).1.1 rfl⟩

/-- Validators that all pass are skipped over by the loop. -/
theorem runValidators_append_pass (pre l : List Validator) (info : Info)
    (hpre : ∀ v ∈ pre, v info = none) :
    runValidators (pre ++ l) info = runValidators l info := by
  induction pre with
  | nil => rfl
  | cons v rest ih =>
    have hv : v info = none := hpre v (List.mem_cons_self v rest)
    have hrest : ∀ w ∈ rest, w info = none := fun w hw => hpre w (List.mem_cons_of_mem v hw)
    simp [runValidators, hv, ih hrest]

/-- C8: validation is fail-fast in list order: with every validator of
the prefix passing and vf failing, the loop stops at vf's error, the
result is independent of everything after vf (so no later validator is
ever executed), and the whole load aborts with vf's error wrapped. -/
theorem c8_validators_fail_fast (pre rest rest2 : List Validator) (vf : Validator)
    (info : Info) (e : VErr)
    (hpre : ∀ v ∈ pre, v info = none) (hf : vf info = some e) :
    runValidators (pre ++ vf :: rest) info = some e ∧
    runValidators (pre ++ vf :: rest) info = runValidators (pre ++ vf :: rest2) info ∧
    (∀ unmarshal fs env options, buildSnapshot unmarshal fs env options = .ok info →
      options.validators = pre ++ vf :: rest →
      loadVersionInfoWith unmarshal fs env options = .error (.validationWrap e)) := by
  have h1 : runValidators (pre ++ vf :: rest) info = some e := by
    rw [runValidators_append_pass pre _ info hpre]
    simp [runValidators, hf]
  have h2 : runValidators (pre ++ vf :: rest2) info = some e := by
    rw [runValidators_append_pass pre _ info hpre]
    simp [runValidators, hf]
  refine ⟨h1, by rw [h1, h2], fun unmarshal fs env options hsnap hvals => ?_⟩
  unfold loadVersionInfoWith
  rw [hsnap, hvals]
  simp [h1]

/-- C8 witness: with validators pass, fail, pass, the loop returns the
failure, the result is unchanged when the trailing validator list is
replaced, and the load aborts with the wrapped failure. -/
theorem c8_validators_fail_fast_w :
    vBoom infoEmptyW = some (VErr.custom "boom") ∧
    runValidators ([vPass] ++ vBoom :: [vPass]) infoEmptyW = some (VErr.custom "boom") ∧
    runValidators ([vPass] ++ vBoom :: [vPass]) infoEmptyW =
      runValidators ([vPass] ++ vBoom :: []) infoEmptyW ∧
    loadVersionInfoWith uFail fsEmpty envW optsVals =
      .error (.validationWrap (VErr.custom "boom")) := by
  have hpre : ∀ v ∈ [vPass], v infoEmptyW = none := by
    intro v hv
    rw [List.mem_singleton] at hv
    rw [hv]
    rfl
  obtain ⟨h1, h2, h3⟩ :=
    c8_validators_fail_fast [vPass] [vPass] [] vBoom infoEmptyW (VErr.custom "boom") hpre rfl
  exact ⟨rfl, h1, h2, h3 uFail fsEmpty envW optsVals rfl rfl⟩

/-- sameCore is reflexive. -/
theorem sameCore_refl (a : Info) : sameCore a a := ⟨rfl, rfl, rfl, rfl, rfl⟩

/-- sameCore is transitive. -/
theorem sameCore_trans {a b c : Info} (h1 : sameCore a b) (h2 : sameCore b c) :
    sameCore a c :=
  ⟨h1.1.trans h2.1, h1.2.1.trans h2.2.1, h1.2.2.1.trans h2.2.2.1,
    h1.2.2.2.1.trans h2.2.2.2.1, h1.2.2.2.2.trans h2.2.2.2.2⟩

/-- One build-info setting leaves the project and dimension maps alone. -/
theorem applyVCSSetting_core (i : Info) (s : String × String) :
    sameCore (applyVCSSetting i s) i := by
  unfold sameCore applyVCSSetting
  split_ifs <;> exact ⟨rfl, rfl, rfl, rfl, rfl⟩

/-- Folding the build-info settings leaves the project and dimension
maps alone. -/
theorem foldl_vcs_core (l : List (String × String)) (i : Info) :
    sameCore (l.foldl applyVCSSetting i) i := by
  induction l generalizing i with
  | nil => exact sameCore_refl i
  | cons s t ih =>
    exact sameCore_trans (ih (applyVCSSetting i s)) (applyVCSSetting_core i s)

/-- The ldflags pass leaves the project and dimension maps alone. -/
theorem applyLdflags_core (env : Env) (i : Info) :
    sameCore (applyLdflagsGitInfo env i) i := by
  unfold sameCore applyLdflagsGitInfo
  dsimp only
  split_ifs <;> exact ⟨rfl, rfl, rfl, rfl, rfl⟩

/-- The build-info pass leaves the project and dimension maps alone. -/
theorem applyBuildInfo_core (env : Env) (i : Info) :
    sameCore (applyBuildInfoGitData env i) i := by
  unfold applyBuildInfoGitData
  rcases henv : env.buildInfoSettings with _ | s
  · exact sameCore_refl i
  · exact foldl_vcs_core s i

/-- The git command fallback leaves the project and dimension maps
alone. -/
theorem applyGitFallback_core (env : Env) (i : Info) :
    sameCore (applyGitCommandFallback env i) i := by
  unfold sameCore applyGitCommandFallback
  dsimp only
  split_ifs <;> exact ⟨rfl, rfl, rfl, rfl, rfl⟩

/-- The whole git enrichment leaves the project and dimension maps
alone. -/
theorem enrichGit_core (env : Env) (i : Info) :
    sameCore (enrichWithGitInfo env i) i := by
  unfold enrichWithGitInfo
  exact sameCore_trans
    (sameCore_trans (applyGitFallback_core env _) (applyBuildInfo_core env _))
    (applyLdflags_core env i)

/-- The build enrichment leaves the project and dimension maps alone. -/
theorem enrichBuild_core (env : Env) (i : Info) :
    sameCore (enrichWithBuildInfo env i) i := by
  unfold sameCore enrichWithBuildInfo
  dsimp only
  split_ifs <;> exact ⟨rfl, rfl, rfl, rfl, rfl⟩

/-- An optional git enrichment leaves the project and dimension maps
alone. -/
theorem ite_enrichGit_core (b : Bool) (env : Env) (i : Info) :
    sameCore (if b then enrichWithGitInfo env i else i) i := by
  cases b
  · exact sameCore_refl i
  · exact enrichGit_core env i

/-- An optional build enrichment leaves the project and dimension maps
alone. -/
theorem ite_enrichBuild_core (b : Bool) (env : Env) (i : Info) :
    sameCore (if b then enrichWithBuildInfo env i else i) i := by
  cases b
  · exact sameCore_refl i
  · exact enrichBuild_core env i

/-- C4: for a missing manifest file, strict mode fails the load with the
strict-mode error, while non-strict mode (with no validators configured)
succeeds with the default project name "unknown", version "0.0.0-dev"
and all dimension maps nil; and any loader failure that is not the
not-found kind — in particular every parseManifest failure — aborts the
load regardless of strict mode. -/
theorem c4_strict_and_defaults (unmarshal : Unmarshal) (fs : FS) (env : Env)
    (options : LoadOptions) :
    (options.manifestEmbed = "" → options.manifestPath ≠ "" →
     fs options.manifestPath = none →
      (options.strictMode = true →
        loadVersionInfoWith unmarshal fs env options =
          .error LoadErr.strictManifestRequired) ∧
      (options.strictMode = false → options.validators = [] →
        ∃ info, loadVersionInfoWith unmarshal fs env options = .ok info ∧
          info.Project.Name = "unknown" ∧ info.Project.Version = "0.0.0-dev" ∧
          info.schemas = none ∧ info.apis = none ∧ info.components = none ∧
          info.custom = none)) ∧
    (∀ e, loadManifest unmarshal fs options = .error e → isNotExist e = false →
      loadVersionInfoWith unmarshal fs env options = .error (.loadManifestWrap e)) ∧
    (∀ data e, parseManifest unmarshal data = .error e → isNotExist e = false) := by
  refine ⟨fun hembed hpath hfs => ⟨fun hstrict => ?_, fun hstrict hvals => ?_⟩,
          fun e hm hne => ?_, fun data e hp => ?_⟩
  · have hm : loadManifest unmarshal fs options = .error .notExist := by
      unfold loadManifest
      rw [if_neg (by rw [hembed]; decide), if_pos hpath, hfs]
    simp [loadVersionInfoWith, buildSnapshot, hm, hstrict, isNotExist]
  · have hm : loadManifest unmarshal fs options = .error .notExist := by
      unfold loadManifest
      rw [if_neg (by rw [hembed]; decide), if_pos hpath, hfs]
    simp only [loadVersionInfoWith, buildSnapshot, hm, hstrict, hvals, isNotExist,
      Bool.false_eq_true, if_false, not_true_eq_false, runValidators]
    refine ⟨_, rfl, ?_⟩
    have hc : sameCore
        (if options.includeBuild then
          enrichWithBuildInfo env
            (if options.includeGit then
              enrichWithGitInfo env { manifestToInfo env defaultManifest with loadedAt := env.now }
            else { manifestToInfo env defaultManifest with loadedAt := env.now })
        else
          (if options.includeGit then
            enrichWithGitInfo env { manifestToInfo env defaultManifest with loadedAt := env.now }
          else { manifestToInfo env defaultManifest with loadedAt := env.now }))
        (manifestToInfo env defaultManifest) := by
      refine sameCore_trans (sameCore_trans (ite_enrichBuild_core _ env _)
        (ite_enrichGit_core _ env _)) ?_
      exact sameCore_refl _
    refine ⟨?_, ?_, ?_, ?_, ?_, ?_⟩
    · rw [hc.1]; rfl
    · rw [hc.1]; rfl
    · rw [hc.2.1]; rfl
    · rw [hc.2.2.1]; rfl
    · rw [hc.2.2.2.1]; rfl
    · rw [hc.2.2.2.2]; rfl
  · unfold loadVersionInfoWith buildSnapshot
    rw [hm]
    by_cases hs : options.strictMode <;> simp [hs, hne]
  · unfold parseManifest at hp
    rcases hu : unmarshal data with s | m0
    · rw [hu] at hp
      rw [← Except.error.inj hp]
      rfl
    · rw [hu] at hp
      dsimp only at hp
      split_ifs at hp <;>
        first
          | exact Except.noConfusion hp
          | (rw [← Except.error.inj hp]; rfl)

/-- C4 witness: on an empty filesystem the strict options fail with the
strict-mode error, the default options succeed with the default project
record, and a parse failure aborts the load even without strict mode. -/
theorem c4_strict_and_defaults_w :
    optsStrict.manifestEmbed = "" ∧ optsStrict.strictMode = true ∧
    fsEmpty optsStrict.manifestPath = none ∧
    loadVersionInfoWith uFail fsEmpty envW optsStrict =
      .error LoadErr.strictManifestRequired ∧
    (∃ info, loadVersionInfoWith uFail fsEmpty envW defaultLoadOptions = .ok info ∧
      info.Project.Name = "unknown" ∧ info.Project.Version = "0.0.0-dev" ∧
      info.schemas = none ∧ info.apis = none ∧ info.components = none ∧
      info.custom = none) ∧
    loadManifest uFail fsOne defaultLoadOptions = .error (.parseYAML "yaml: malformed") ∧
    isNotExist (LoadErr.parseYAML "yaml: malformed") = false ∧
    loadVersionInfoWith uFail fsOne envW defaultLoadOptions =
      .error (.loadManifestWrap (.parseYAML "yaml: malformed")) := by
  refine ⟨rfl, rfl, rfl, ?_, ?_, rfl, rfl, ?_⟩
  · exact ((c4_strict_and_defaults uFail fsEmpty envW optsStrict).1 rfl (by decide) rfl).1 rfl
  · exact ((c4_strict_and_defaults uFail fsEmpty envW defaultLoadOptions).1 rfl (by decide) rfl).2
      rfl rfl
  · exact (c4_strict_and_defaults uFail fsOne envW defaultLoadOptions).2.1
      (LoadErr.parseYAML "yaml: malformed") rfl rfl

/-- Characters with equal code points are equal. -/
theorem char_eq_of_toNat_eq {a b : Char} (h : a.toNat = b.toNat) : a = b :=
  Char.ext (UInt32.ext h)

/-- The character-list order is irreflexive. -/
theorem chListLt_self (l : List Char) : SemVer.chListLt l l = false := by
  induction l with
  | nil => rfl
  | cons a as ih => simp [SemVer.chListLt, Nat.lt_irrefl, ih]

/-- The character-list order is connex on distinct lists. -/
theorem chListLt_connex (l m : List Char) (hne : l ≠ m) :
    SemVer.chListLt l m = true ∨ SemVer.chListLt m l = true := by
  induction l generalizing m with
  | nil =>
    cases m with
    | nil => exact absurd rfl hne
    | cons b bs => exact Or.inl rfl
  | cons a as ih =>
    cases m with
    | nil => exact Or.inr rfl
    | cons b bs =>
      rcases Nat.lt_trichotomy a.toNat b.toNat with h | h | h
      · exact Or.inl (by simp [SemVer.chListLt, h])
      · have hab : a = b := char_eq_of_toNat_eq h
        subst hab
        have hne2 : as ≠ bs := fun hh => hne (by rw [hh])
        rcases ih bs hne2 with h1 | h1
        · exact Or.inl (by simp [SemVer.chListLt, Nat.lt_irrefl, h1])
        · exact Or.inr (by simp [SemVer.chListLt, Nat.lt_irrefl, h1])
      · exact Or.inr (by simp [SemVer.chListLt, h])

/-- Go string comparison is irreflexive. -/
theorem goStrLt_self (p : String) : SemVer.goStrLt p p = false := chListLt_self p.data

/-- Go string comparison is connex on distinct strings. -/
theorem goStrLt_connex (p q : String) (hne : p ≠ q) :
    SemVer.goStrLt p q = true ∨ SemVer.goStrLt q p = true := by
  have hld : p.data ≠ q.data := fun h => hne (by
    have h2 : String.mk p.data = String.mk q.data := congrArg String.mk h
    simpa using h2)
  exact chListLt_connex p.data q.data hld

/-- The prerelease branch of Compare agrees with the specification's
prerelease rule. -/
theorem preCompare_eq (p q : String) :
    (if p = "" ∧ q ≠ "" then (1 : Int)
     else if p ≠ "" ∧ q = "" then -1
     else if p ≠ q then (if SemVer.goStrLt p q then (-1 : Int) else 1)
     else 0) = SemVer.specPreCompare p q := by
  unfold SemVer.specPreCompare
  by_cases hp : p = "" <;> by_cases hq : q = ""
  · subst hp
    subst hq
    simp
  · subst hp
    simp [hq]
  · subst hq
    simp [hp]
  · by_cases hpq : p = q
    · subst hpq
      simp [hp, goStrLt_self]
    · by_cases hlt : SemVer.goStrLt p q = true
      · simp [hp, hq, hpq, hlt]
      · have hgt : SemVer.goStrLt q p = true := by
          rcases goStrLt_connex p q hpq with h | h
          · exact absurd h hlt
          · exact h
        simp [hp, hq, hpq, hlt, hgt]

/-- Compare agrees with the specification's description. -/
theorem compare_eq_specCompare (a b : SemVer.Version) :
    a.Compare b = SemVer.specCompare a b := by
  unfold SemVer.Version.Compare SemVer.specCompare
  rcases Int.lt_trichotomy a.Major b.Major with h1 | h1 | h1
  · rw [if_pos (by omega : a.Major ≠ b.Major), if_pos h1, if_pos h1]
  · rw [if_neg (by omega : ¬ a.Major ≠ b.Major),
      if_neg (by omega : ¬ a.Major < b.Major), if_neg (by omega : ¬ b.Major < a.Major)]
    rcases Int.lt_trichotomy a.Minor b.Minor with h2 | h2 | h2
    · rw [if_pos (by omega : a.Minor ≠ b.Minor), if_pos h2, if_pos h2]
    · rw [if_neg (by omega : ¬ a.Minor ≠ b.Minor),
        if_neg (by omega : ¬ a.Minor < b.Minor), if_neg (by omega : ¬ b.Minor < a.Minor)]
      rcases Int.lt_trichotomy a.Patch b.Patch with h3 | h3 | h3
      · rw [if_pos (by omega : a.Patch ≠ b.Patch), if_pos h3, if_pos h3]
      · rw [if_neg (by omega : ¬ a.Patch ≠ b.Patch),
          if_neg (by omega : ¬ a.Patch < b.Patch), if_neg (by omega : ¬ b.Patch < a.Patch)]
        exact preCompare_eq a.Prerelease b.Prerelease
      · rw [if_pos (by omega : a.Patch ≠ b.Patch)]
        split_ifs <;> omega
    · rw [if_pos (by omega : a.Minor ≠ b.Minor)]
      split_ifs <;> omega
  · rw [if_pos (by omega : a.Major ≠ b.Major)]
    split_ifs <;> omega

/-- C6: Compare always lands in the sign set, is exactly the
specification's comparison (major, minor, patch numerically, then the
release-outranks-prerelease rule, then plain lexicographic string
comparison of tags), never consults build metadata, and the five ordering
predicates agree with Compare's sign. -/
theorem c6_compare_contract (a b : SemVer.Version) :
    (a.Compare b = -1 ∨ a.Compare b = 0 ∨ a.Compare b = 1) ∧
    a.Compare b = SemVer.specCompare a b ∧
    (∀ b1 b2 : String,
      SemVer.Version.Compare { a with Build := b1 } { b with Build := b2 } = a.Compare b) ∧
    a.LessThan b = decide (a.Compare b < 0) ∧
    a.GreaterThan b = decide (0 < a.Compare b) ∧
    a.Equal b = decide (a.Compare b = 0) ∧
    a.GreaterThanOrEqual b = decide (0 ≤ a.Compare b) ∧
    a.LessThanOrEqual b = decide (a.Compare b ≤ 0) := by
  refine ⟨?_, compare_eq_specCompare a b, fun b1 b2 => rfl, rfl, rfl, rfl, rfl, rfl⟩
  unfold SemVer.Version.Compare
  split_ifs <;> omega

/-- Looking up an inserted key finds the inserted value; other keys are
unaffected. -/
theorem mapLookup_insert {α : Type} (k k1 : String) (v : α) (m : StrMap α) :
    mapLookup k (mapInsert k1 v m) = if k1 = k then some v else mapLookup k m := by
  induction m with
  | nil => simp [mapInsert, mapLookup]
  | cons p rest ih =>
    obtain ⟨k2, v2⟩ := p
    by_cases h1 : k2 = k1
    · subst h1
      by_cases h2 : k2 = k
      · subst h2
        simp [mapInsert, mapLookup]
      · simp [mapInsert, mapLookup, h2]
    · by_cases h2 : k2 = k
      · subst h2
        have h3 : ¬ k1 = k2 := fun hh => h1 hh.symm
        simp [mapInsert, mapLookup, h1, h3, ih]
      · simp [mapInsert, mapLookup, h1, h2, ih]

/-- A key matching no entry looks up to none. -/
theorem lookup_eq_none_of_not_any {α : Type} (k : String) (m : StrMap α)
    (h : m.any (fun p => p.1 == k) = false) : mapLookup k m = none := by
  induction m with
  | nil => rfl
  | cons p rest ih =>
    obtain ⟨k1, v1⟩ := p
    simp only [List.any_cons, Bool.or_eq_false_iff] at h
    have hk : ¬ k1 = k := by simpa using h.1
    simp [mapLookup, hk, ih h.2]

/-- Folding insertions of a map with distinct keys over an accumulator:
keys of the map win, other keys fall through to the accumulator. -/
theorem foldl_insert_lookup {α : Type} (k : String) (m : StrMap α) (h : keysND m = true) :
    ∀ acc, mapLookup k (m.foldl (fun acc p => mapInsert p.1 p.2 acc) acc) =
      (match mapLookup k m with
       | some v => some v
       | none => mapLookup k acc) := by
  induction m with
  | nil => intro acc; rfl
  | cons p rest ih =>
    obtain ⟨k1, v1⟩ := p
    simp only [keysND, Bool.and_eq_true, Bool.not_eq_true'] at h
    intro acc
    rw [List.foldl_cons, ih h.2]
    by_cases hkk : k1 = k
    · subst hkk
      have hnone : mapLookup k1 rest = none := lookup_eq_none_of_not_any _ _ h.1
      simp [mapLookup, hnone, mapLookup_insert]
    · cases hr : mapLookup k rest <;> simp [mapLookup, hkk, hr, mapLookup_insert]

/-- A copied map with distinct keys answers every lookup like the
original. -/
theorem copyMap_lookup {α : Type} (k : String) (m : StrMap α) (h : keysND m = true) :
    mapLookup k (copyMap m) = mapLookup k m := by
  unfold copyMap
  rw [foldl_insert_lookup k m h []]
  cases hr : mapLookup k m <;> rfl

/-- Reading below the length of the left part of an append. -/
theorem heapRead_append_lt {α : Type} (h : Heap α) (l : List (StrMap α)) (r : Nat)
    (hr : r < h.length) : heapRead (h ++ l) r = heapRead h r := by
  unfold heapRead
  rw [List.get?_append hr]

/-- Reading a freshly appended cell. -/
theorem heapRead_concat_self {α : Type} (h : Heap α) (c : StrMap α) :
    heapRead (h ++ [c]) h.length = c := by
  unfold heapRead
  rw [List.get?_concat_length]
  rfl

/-- Writing one cell leaves every other cell unchanged. -/
theorem heapRead_write_ne {α : Type} (h : Heap α) (r1 r2 : Nat) (m : StrMap α)
    (hne : r1 ≠ r2) : heapRead (heapWrite h r1 m) r2 = heapRead h r2 := by
  unfold heapRead heapWrite
  rw [List.get?_set_ne m h hne]

/-- The generic copy-out getter satisfies the defensive-copy contract on
every valid field. -/
theorem copyOut_ok {α : Type} (f : Option Nat) (h : Heap α) (hv : validField f h = true) :
    copyOutSpec f (copyOutMap f h) (copyOutMap f (copyOutMap f h).1) h := by
  cases f with
  | none => exact ⟨rfl, rfl⟩
  | some r =>
    simp only [validField, Bool.and_eq_true, decide_eq_true_eq] at hv
    obtain ⟨hr, hnd⟩ := hv
    have hc1 : heapRead (h ++ [copyMap (heapRead h r)]) r = heapRead h r :=
      heapRead_append_lt h _ r hr
    refine ⟨h.length, h.length + 1, rfl, ?_, by omega, by omega, by omega, ?_, ?_, ?_, ?_⟩
    · simp [copyOutMap, heapAlloc, hc1]
    all_goals
      simp only [copyOutMap, heapAlloc, hc1]
    · -- first fresh cell still holds the copy after both allocations
      intro k
      have : heapRead ((h ++ [copyMap (heapRead h r)]) ++ [copyMap (heapRead h r)]) h.length
          = copyMap (heapRead h r) := by
        rw [heapRead_append_lt _ _ _ (by simp), heapRead_concat_self]
      rw [this, copyMap_lookup k _ hnd]
    · -- second fresh cell holds the copy
      intro k
      have hlen : (h ++ [copyMap (heapRead h r)]).length = h.length + 1 := by simp
      have : heapRead ((h ++ [copyMap (heapRead h r)]) ++ [copyMap (heapRead h r)]) (h.length + 1)
          = copyMap (heapRead h r) := by
        rw [← hlen, heapRead_concat_self]
      rw [this, copyMap_lookup k _ hnd]
    · -- the internal cell is untouched
      rw [heapRead_append_lt _ _ _ (by simp; omega), hc1]
    · -- writes to either fresh cell do not reach the other or the internal cell
      intro m
      exact ⟨heapRead_write_ne _ _ _ _ (by omega), heapRead_write_ne _ _ _ _ (by omega),
        heapRead_write_ne _ _ _ _ (by omega), heapRead_write_ne _ _ _ _ (by omega)⟩

/-- C1: for every Info and every dimension map getter, two successive
calls allocate fresh, distinct cells, both holding maps that answer
every lookup like the internal map; neither aliases the other or the
internal cell, and mutating either returned map changes neither the
other returned map nor the Info's internal map. -/
theorem c1_defensive_copy (i : InfoH) (hs : Heap String) (hc : Heap GoValue)
    (h1 : validField i.schemas hs = true) (h2 : validField i.apis hs = true)
    (h3 : validField i.components hs = true) (h4 : validField i.custom hc = true) :
    copyOutSpec i.schemas (i.GetSchemas hs) (i.GetSchemas (i.GetSchemas hs).1) hs ∧
    copyOutSpec i.apis (i.GetAPIs hs) (i.GetAPIs (i.GetAPIs hs).1) hs ∧
    copyOutSpec i.components (i.GetComponents hs) (i.GetComponents (i.GetComponents hs).1) hs ∧
    copyOutSpec i.custom (i.GetCustom hc) (i.GetCustom (i.GetCustom hc).1) hc :=
  ⟨copyOut_ok i.schemas hs h1, copyOut_ok i.apis hs h2,
    copyOut_ok i.components hs h3, copyOut_ok i.custom hc h4⟩

/-- C1 witness: a concrete Info whose four dimensions point at concrete
one-entry heap cells satisfies the defensive-copy contract. -/
theorem c1_defensive_copy_w :
    validField ((InfoH.mk (some 0) (some 0) (some 0) (some 0)).schemas) [[("a", "1")]] = true ∧
    validField ((InfoH.mk (some 0) (some 0) (some 0) (some 0)).custom)
      [[("k", GoValue.null)]] = true ∧
    copyOutSpec ((InfoH.mk (some 0) (some 0) (some 0) (some 0)).schemas)
      ((InfoH.mk (some 0) (some 0) (some 0) (some 0)).GetSchemas [[("a", "1")]])
      ((InfoH.mk (some 0) (some 0) (some 0) (some 0)).GetSchemas
        (((InfoH.mk (some 0) (some 0) (some 0) (some 0)).GetSchemas [[("a", "1")]]).1))
      [[("a", "1")]] ∧
    copyOutSpec ((InfoH.mk (some 0) (some 0) (some 0) (some 0)).custom)
      ((InfoH.mk (some 0) (some 0) (some 0) (some 0)).GetCustom [[("k", GoValue.null)]])
      ((InfoH.mk (some 0) (some 0) (some 0) (some 0)).GetCustom
        (((InfoH.mk (some 0) (some 0) (some 0) (some 0)).GetCustom [[("k", GoValue.null)]]).1))
      [[("k", GoValue.null)]] :=
  ⟨by decide, by decide,
    (c1_defensive_copy (InfoH.mk (some 0) (some 0) (some 0) (some 0))
      [[("a", "1")]] [[("k", GoValue.null)]]
      (by decide) (by decide) (by decide) (by decide)).1,
    (c1_defensive_copy (InfoH.mk (some 0) (some 0) (some 0) (some 0))
      [[("a", "1")]] [[("k", GoValue.null)]]
      (by decide) (by decide) (by decide) (by decide)).2.2.2⟩

namespace Singleton

/-- Membership after a list update. -/
theorem pc_mem_set {l : List PC} {i : Nat} {a b : PC} (h : b ∈ l.set i a) :
    b ∈ l ∨ b = a :=
  List.mem_or_eq_of_mem_set h

/-- A step never changes the number of threads. -/
theorem step_len {c c2 : Config} (h : Step c c2) : c2.ts.length = c.ts.length := by
  cases h <;> simp [List.length_set]

/-- Reachability never changes the number of threads. -/
theorem reaches_len {c c2 : Config} (h : Reaches c c2) : c2.ts.length = c.ts.length := by
  induction h with
  | refl => rfl
  | tail hab hbc ih => rw [step_len hbc, ih]

/-- The invariant holds initially. -/
theorem inv_initial {c : Config} (h : Initial c) : Inv c := by
  obtain ⟨h1, h2, h3, h4, h5⟩ := h
  refine ⟨fun _ => h4, fun hne => absurd h1 hne, fun _ => ⟨h2, h3⟩,
    fun hnp => absurd (by rw [h1]; trivial) hnp, ?_, ?_, ?_, ?_, ?_⟩
  · rw [h2, h3]
    simp
  · intro r hmem
    rcases h5 _ hmem with h | h <;> exact PC.noConfusion h
  · intro e hmem
    rcases h5 _ hmem with h | h <;> exact PC.noConfusion h
  · intro hmem
    rcases h5 _ hmem with h | h <;> exact PC.noConfusion h
  · intro hmem
    rcases h5 _ hmem with h | h <;> exact PC.noConfusion h

/-- The invariant is preserved by every step. -/
theorem inv_step {c c2 : Config} (hInv : Inv c) (hstep : Step c c2) : Inv c2 := by
  cases hstep with
  | fastHit i r hg hv =>
    refine ⟨hInv.runs_idle, hInv.runs_other, hInv.no_outcome, hInv.outcome, hInv.excl,
      ?_, ?_, ?_, ?_⟩
    · intro r0 hmem
      rcases pc_mem_set hmem with h | h
      · exact hInv.fin_inst r0 h
      · injection h with hh
        subst hh
        exact hv
    · intro e0 hmem
      rcases pc_mem_set hmem with h | h
      · exact hInv.fin_err e0 h
      · exact PC.noConfusion h
    · intro hmem
      rcases pc_mem_set hmem with h | h
      · exact hInv.after_completed h
      · exact PC.noConfusion h
    · intro hmem
      rcases pc_mem_set hmem with h | h
      · exact hInv.no_failed h
      · exact PC.noConfusion h
  | fastMiss i hg hv =>
    refine ⟨hInv.runs_idle, hInv.runs_other, hInv.no_outcome, hInv.outcome, hInv.excl,
      ?_, ?_, ?_, ?_⟩
    · intro r0 hmem
      rcases pc_mem_set hmem with h | h
      · exact hInv.fin_inst r0 h
      · exact PC.noConfusion h
    · intro e0 hmem
      rcases pc_mem_set hmem with h | h
      · exact hInv.fin_err e0 h
      · exact PC.noConfusion h
    · intro hmem
      rcases pc_mem_set hmem with h | h
      · exact hInv.after_completed h
      · exact PC.noConfusion h
    · intro hmem
      rcases pc_mem_set hmem with h | h
      · exact hInv.no_failed h
      · exact PC.noConfusion h
  | acquire i hg ho =>
    refine ⟨?_, ?_, ?_, ?_, hInv.excl, hInv.fin_inst, hInv.fin_err, ?_, hInv.no_failed⟩
    · intro h
      exact OnceSt.noConfusion h
    · intro _
      have h0 := hInv.runs_idle ho
      show c.runs + 1 = 1
      omega
    · intro _
      exact hInv.no_outcome (by rw [ho]; trivial)
    · intro h
      exact absurd (by trivial) h
    · intro hmem
      have hcomp := hInv.after_completed hmem
      rw [ho] at hcomp
      exact OnceSt.noConfusion hcomp
  | bodyOk i v hg ho =>
    refine ⟨?_, ?_, ?_, ?_, ?_, ?_, hInv.fin_err, ?_, hInv.no_failed⟩
    · intro h
      exact OnceSt.noConfusion h
    · intro _
      exact hInv.runs_other (by rw [ho]; exact fun hh => OnceSt.noConfusion hh)
    · intro h
      exact h.elim
    · intro _
      exact Or.inl rfl
    · intro hand
      have hen := (hInv.no_outcome (by rw [ho]; trivial)).2
      rw [hen] at hand
      simp at hand
    · intro r0 hmem
      have h0 := hInv.fin_inst r0 hmem
      have hn := (hInv.no_outcome (by rw [ho]; trivial)).1
      rw [hn] at h0
      exact Option.noConfusion h0
    · intro hmem
      have hcomp := hInv.after_completed hmem
      rw [ho] at hcomp
      exact OnceSt.noConfusion hcomp
  | bodyFail i e hg ho =>
    refine ⟨?_, ?_, ?_, ?_, ?_, hInv.fin_inst, ?_, ?_, hInv.no_failed⟩
    · intro h
      exact OnceSt.noConfusion h
    · intro _
      exact hInv.runs_other (by rw [ho]; exact fun hh => OnceSt.noConfusion hh)
    · intro h
      exact h.elim
    · intro _
      exact Or.inr rfl
    · intro hand
      have hin := (hInv.no_outcome (by rw [ho]; trivial)).1
      rw [hin] at hand
      simp at hand
    · intro e0 hmem
      have h0 := hInv.fin_err e0 hmem
      have hn := (hInv.no_outcome (by rw [ho]; trivial)).2
      rw [hn] at h0
      exact Option.noConfusion h0
    · intro hmem
      have hcomp := hInv.after_completed hmem
      rw [ho] at hcomp
      exact OnceSt.noConfusion hcomp
  | closeOnce i hg ho =>
    refine ⟨?_, ?_, ?_, ?_, hInv.excl, ?_, ?_, ?_, ?_⟩
    · intro h
      exact OnceSt.noConfusion h
    · intro _
      exact hInv.runs_other (by rw [ho]; exact fun hh => OnceSt.noConfusion hh)
    · intro h
      exact h.elim
    · intro _
      exact hInv.outcome (by rw [ho]; exact fun hF => hF)
    · intro r0 hmem
      rcases pc_mem_set hmem with h | h
      · exact hInv.fin_inst r0 h
      · exact PC.noConfusion h
    · intro e0 hmem
      rcases pc_mem_set hmem with h | h
      · exact hInv.fin_err e0 h
      · exact PC.noConfusion h
    · intro _
      rfl
    · intro hmem
      rcases pc_mem_set hmem with h | h
      · exact hInv.no_failed h
      · exact PC.noConfusion h
  | skipOnce i hg ho =>
    refine ⟨hInv.runs_idle, hInv.runs_other, hInv.no_outcome, hInv.outcome, hInv.excl,
      ?_, ?_, ?_, ?_⟩
    · intro r0 hmem
      rcases pc_mem_set hmem with h | h
      · exact hInv.fin_inst r0 h
      · exact PC.noConfusion h
    · intro e0 hmem
      rcases pc_mem_set hmem with h | h
      · exact hInv.fin_err e0 h
      · exact PC.noConfusion h
    · intro _
      exact ho
    · intro hmem
      rcases pc_mem_set hmem with h | h
      · exact hInv.no_failed h
      · exact PC.noConfusion h
  | readErr i e hg he =>
    refine ⟨hInv.runs_idle, hInv.runs_other, hInv.no_outcome, hInv.outcome, hInv.excl,
      ?_, ?_, ?_, ?_⟩
    · intro r0 hmem
      rcases pc_mem_set hmem with h | h
      · exact hInv.fin_inst r0 h
      · exact PC.noConfusion h
    · intro e0 hmem
      rcases pc_mem_set hmem with h | h
      · exact hInv.fin_err e0 h
      · injection h with hh
        subst hh
        exact he
    · intro hmem
      rcases pc_mem_set hmem with h | h
      · exact hInv.after_completed h
      · exact PC.noConfusion h
    · intro hmem
      rcases pc_mem_set hmem with h | h
      · exact hInv.no_failed h
      · exact PC.noConfusion h
  | readOk i r hg he hv =>
    refine ⟨hInv.runs_idle, hInv.runs_other, hInv.no_outcome, hInv.outcome, hInv.excl,
      ?_, ?_, ?_, ?_⟩
    · intro r0 hmem
      rcases pc_mem_set hmem with h | h
      · exact hInv.fin_inst r0 h
      · injection h with hh
        subst hh
        exact hv
    · intro e0 hmem
      rcases pc_mem_set hmem with h | h
      · exact hInv.fin_err e0 h
      · exact PC.noConfusion h
    · intro hmem
      rcases pc_mem_set hmem with h | h
      · exact hInv.after_completed h
      · exact PC.noConfusion h
    · intro hmem
      rcases pc_mem_set hmem with h | h
      · exact hInv.no_failed h
      · exact PC.noConfusion h
  | readNone i hg he hv =>
    exfalso
    have hmem : PC.afterOnce ∈ c.ts := List.get?_mem hg
    have hco := hInv.after_completed hmem
    have hout := hInv.outcome (by rw [hco]; exact fun hF => hF)
    rw [he, hv] at hout
    simp at hout

/-- The invariant holds in every reachable configuration. -/
theorem inv_reaches {c c2 : Config} (h0 : Inv c) (h : Reaches c c2) : Inv c2 := by
  induction h with
  | refl => exact h0
  | tail hab hbc ih => exact inv_step ih hbc

/-- C2: from an initial configuration with at least two threads racing
through the initialize and auto-init entry points, any interleaving in
which every thread finishes observing an instance has run the pipeline
body exactly once, and every thread observed the one published instance
(the same reference, not merely an equal value). -/
theorem c2_singleton_once (c0 cf : Config) (hlen : 2 ≤ c0.ts.length)
    (h0 : Initial c0) (hr : Reaches c0 cf)
    (hdone : ∀ pc ∈ cf.ts, ∃ r, pc = PC.finished r) :
    cf.runs = 1 ∧ ∃ v, cf.instVal = some v ∧ ∀ pc ∈ cf.ts, pc = PC.finished v := by
  have hInv := inv_reaches (inv_initial h0) hr
  have hlen2 : cf.ts.length = c0.ts.length := reaches_len hr
  have hne : cf.ts ≠ [] := by
    intro h
    rw [h] at hlen2
    simp at hlen2
    omega
  obtain ⟨pc0, hpc0⟩ := List.exists_mem_of_ne_nil cf.ts hne
  obtain ⟨r, hrr⟩ := hdone pc0 hpc0
  subst hrr
  have hv : cf.instVal = some r := hInv.fin_inst r hpc0
  have hnp : ¬ Singleton.preBody cf.once := by
    intro hp
    have hn := (hInv.no_outcome hp).1
    rw [hv] at hn
    exact Option.noConfusion hn
  have hruns : cf.runs = 1 := hInv.runs_other (fun hid => hnp (by rw [hid]; trivial))
  refine ⟨hruns, r, hv, fun pc hpc => ?_⟩
  obtain ⟨r2, hr2⟩ := hdone pc hpc
  subst hr2
  have h2 := hInv.fin_inst r2 hpc
  rw [hv] at h2
  injection h2 with hh
  rw [hh]

/-- C2 witness: two threads, one entering through initialize and one
through Get's fast path, interleave to completion; the body runs once
and both finish on the same instance reference. -/
theorem c2_singleton_once_w :
    2 ≤ (Config.mk OnceSt.idle none none 0 [PC.inOnce, PC.fastRead]).ts.length ∧
    Initial (Config.mk OnceSt.idle none none 0 [PC.inOnce, PC.fastRead]) ∧
    ((Config.mk OnceSt.completed (some 7) none 1 [PC.finished 7, PC.finished 7]).runs = 1 ∧
      ∃ v, (Config.mk OnceSt.completed (some 7) none 1
              [PC.finished 7, PC.finished 7]).instVal = some v ∧
        ∀ pc ∈ (Config.mk OnceSt.completed (some 7) none 1
                  [PC.finished 7, PC.finished 7]).ts,
          pc = PC.finished v) := by
  have hinit : Initial (Config.mk OnceSt.idle none none 0 [PC.inOnce, PC.fastRead]) := by
    refine ⟨rfl, rfl, rfl, rfl, ?_⟩
    intro pc hpc
    simp only [List.mem_cons, List.not_mem_nil, or_false] at hpc
    rcases hpc with h | h
    · exact Or.inr h
    · exact Or.inl h
  have s1 : Step (Config.mk OnceSt.idle none none 0 [PC.inOnce, PC.fastRead])
      (Config.mk (OnceSt.runBody 0) none none 1 [PC.inOnce, PC.fastRead]) :=
    Step.acquire _ 0 rfl rfl
  have s2 : Step (Config.mk (OnceSt.runBody 0) none none 1 [PC.inOnce, PC.fastRead])
      (Config.mk (OnceSt.runClose 0) (some 7) none 1 [PC.inOnce, PC.fastRead]) :=
    Step.bodyOk _ 0 7 rfl rfl
  have s3 : Step (Config.mk (OnceSt.runClose 0) (some 7) none 1 [PC.inOnce, PC.fastRead])
      (Config.mk OnceSt.completed (some 7) none 1 [PC.afterOnce, PC.fastRead]) :=
    Step.closeOnce _ 0 rfl rfl
  have s4 : Step (Config.mk OnceSt.completed (some 7) none 1 [PC.afterOnce, PC.fastRead])
      (Config.mk OnceSt.completed (some 7) none 1 [PC.finished 7, PC.fastRead]) :=
    Step.readOk _ 0 7 rfl rfl rfl
  have s5 : Step (Config.mk OnceSt.completed (some 7) none 1 [PC.finished 7, PC.fastRead])
      (Config.mk OnceSt.completed (some 7) none 1 [PC.finished 7, PC.finished 7]) :=
    Step.fastHit _ 1 7 rfl rfl
  have hreach : Reaches (Config.mk OnceSt.idle none none 0 [PC.inOnce, PC.fastRead])
      (Config.mk OnceSt.completed (some 7) none 1 [PC.finished 7, PC.finished 7]) :=
    Relation.ReflTransGen.head s1 (Relation.ReflTransGen.head s2
      (Relation.ReflTransGen.head s3 (Relation.ReflTransGen.head s4
        (Relation.ReflTransGen.single s5))))
  have hdone : ∀ pc ∈ (Config.mk OnceSt.completed (some 7) none 1
      [PC.finished 7, PC.finished 7]).ts, ∃ r, pc = PC.finished r := by
    intro pc hpc
    simp only [List.mem_cons, List.not_mem_nil, or_false] at hpc
    rcases hpc with h | h <;> exact ⟨7, h⟩
  exact ⟨by decide, hinit,
    c2_singleton_once _ _ (by decide) hinit hreach hdone⟩

/-- Once the stored error exists, no step can write the instance, the
error, or the run counter again. -/
theorem err_sticky_step {c c2 : Config} (hInv : Inv c) (e : Nat) (he : c.err = some e)
    (hstep : Step c c2) : c2.err = some e ∧ c2.instVal = c.instVal ∧ c2.runs = c.runs := by
  have hnb : ¬ Singleton.preBody c.once := by
    intro hp
    have hn := (hInv.no_outcome hp).2
    rw [he] at hn
    exact Option.noConfusion hn
  cases hstep with
  | fastHit i r hg hv => exact ⟨he, rfl, rfl⟩
  | fastMiss i hg hv => exact ⟨he, rfl, rfl⟩
  | acquire i hg ho => exact absurd (by rw [ho]; trivial) hnb
  | bodyOk i v hg ho => exact absurd (by rw [ho]; trivial) hnb
  | bodyFail i e2 hg ho => exact absurd (by rw [ho]; trivial) hnb
  | closeOnce i hg ho => exact ⟨he, rfl, rfl⟩
  | skipOnce i hg ho => exact ⟨he, rfl, rfl⟩
  | readErr i e2 hg he2 => exact ⟨he, rfl, rfl⟩
  | readOk i r hg he2 hv => exact ⟨he, rfl, rfl⟩
  | readNone i hg he2 hv => exact ⟨he, rfl, rfl⟩

/-- The stored error, the absent instance, and the run counter persist
along every further execution. -/
theorem err_sticky {c c2 : Config} (hInv : Inv c) (e : Nat) (he : c.err = some e)
    (hr : Reaches c c2) : c2.err = some e ∧ c2.instVal = c.instVal ∧ c2.runs = c.runs := by
  induction hr with
  | refl => exact ⟨he, rfl, rfl⟩
  | tail hab hbc ih =>
    obtain ⟨h1, h2, h3⟩ := ih
    have hInvb := inv_reaches hInv hab
    obtain ⟨g1, g2, g3⟩ := err_sticky_step hInvb e h1 hbc
    exact ⟨g1, g2.trans h2, g3.trans h3⟩

/-- C9: if a pipeline failure has been recorded, then the instance was
never published and never will be (so IsInitialized stays false), the
body ran exactly once and is never re-run, no thread ever finishes
observing an instance, and every thread that finishes observing an
error observes that same stored error. -/
theorem c9_failure_atomic (c0 c1 c2 : Config) (e : Nat)
    (h0 : Initial c0) (hr1 : Reaches c0 c1) (he : c1.err = some e)
    (hr2 : Reaches c1 c2) :
    c2.err = some e ∧ c2.instVal = none ∧ c2.runs = 1 ∧
    (∀ r, PC.finished r ∉ c2.ts) ∧
    (∀ x, PC.finishedErr x ∈ c2.ts → x = e) := by
  have hInv1 := inv_reaches (inv_initial h0) hr1
  have hIsome : c1.err.isSome = true := by rw [he]; rfl
  have hinone : c1.instVal = none := by
    cases hvv : c1.instVal with
    | none => rfl
    | some v => exact absurd ⟨by rw [hvv]; rfl, hIsome⟩ hInv1.excl
  have hruns1 : c1.runs = 1 := by
    refine hInv1.runs_other (fun hid => ?_)
    have hn := (hInv1.no_outcome (by rw [hid]; trivial)).2
    rw [he] at hn
    exact Option.noConfusion hn
  obtain ⟨g1, g2, g3⟩ := err_sticky hInv1 e he hr2
  have hInv2 := inv_reaches hInv1 hr2
  refine ⟨g1, g2.trans hinone, g3.trans hruns1, fun r hmem => ?_, fun x hmem => ?_⟩
  · have hfin := hInv2.fin_inst r hmem
    rw [g2.trans hinone] at hfin
    exact Option.noConfusion hfin
  · have hfin := hInv2.fin_err x hmem
    rw [g1] at hfin
    exact (Option.some.inj hfin).symm

/-- C9 witness: one thread initializes, the pipeline fails recording
error 5; the error stays, the instance stays unpublished, the body ran
once, and the subsequent read observes the same error 5. -/
theorem c9_failure_atomic_w :
    Initial (Config.mk OnceSt.idle none none 0 [PC.inOnce]) ∧
    (Config.mk OnceSt.completed none (some 5) 1 [PC.afterOnce]).err = some 5 ∧
    ((Config.mk OnceSt.completed none (some 5) 1 [PC.finishedErr 5]).err = some 5 ∧
      (Config.mk OnceSt.completed none (some 5) 1 [PC.finishedErr 5]).instVal = none ∧
      (Config.mk OnceSt.completed none (some 5) 1 [PC.finishedErr 5]).runs = 1 ∧
      (∀ r, PC.finished r ∉ (Config.mk OnceSt.completed none (some 5) 1
        [PC.finishedErr 5]).ts) ∧
      (∀ x, PC.finishedErr x ∈ (Config.mk OnceSt.completed none (some 5) 1
        [PC.finishedErr 5]).ts → x = 5)) := by
  have hinit : Initial (Config.mk OnceSt.idle none none 0 [PC.inOnce]) := by
    refine ⟨rfl, rfl, rfl, rfl, ?_⟩
    intro pc hpc
    simp only [List.mem_cons, List.not_mem_nil, or_false] at hpc
    exact Or.inr hpc
  have s1 : Step (Config.mk OnceSt.idle none none 0 [PC.inOnce])
      (Config.mk (OnceSt.runBody 0) none none 1 [PC.inOnce]) :=
    Step.acquire _ 0 rfl rfl
  have s2 : Step (Config.mk (OnceSt.runBody 0) none none 1 [PC.inOnce])
      (Config.mk (OnceSt.runClose 0) none (some 5) 1 [PC.inOnce]) :=
    Step.bodyFail _ 0 5 rfl rfl
  have s3 : Step (Config.mk (OnceSt.runClose 0) none (some 5) 1 [PC.inOnce])
      (Config.mk OnceSt.completed none (some 5) 1 [PC.afterOnce]) :=
    Step.closeOnce _ 0 rfl rfl
  have hr1 : Reaches (Config.mk OnceSt.idle none none 0 [PC.inOnce])
      (Config.mk OnceSt.completed none (some 5) 1 [PC.afterOnce]) :=
    Relation.ReflTransGen.head s1 (Relation.ReflTransGen.head s2
      (Relation.ReflTransGen.single s3))
  have s4 : Step (Config.mk OnceSt.completed none (some 5) 1 [PC.afterOnce])
      (Config.mk OnceSt.completed none (some 5) 1 [PC.finishedErr 5]) :=
    Step.readErr _ 0 5 rfl rfl
  have hr2 : Reaches (Config.mk OnceSt.completed none (some 5) 1 [PC.afterOnce])
      (Config.mk OnceSt.completed none (some 5) 1 [PC.finishedErr 5]) :=
    Relation.ReflTransGen.single s4
  exact ⟨hinit, rfl, c9_failure_atomic _ _ _ 5 hinit hr1 rfl hr2⟩

end Singleton

end GoVersion
